import Mathlib

/-!
Verification of the EchoLens repository: a shallow embedding of the
frontend utilities (helpers, EmotionBadge, DebateResults, session state,
the simulated analyze route) together with models of the backend pipeline
(token-budget chunking, confidence-weighted aggregation, the two-stage
debate orchestrator) taken from the written design where the backend
sources are not part of the checked tree.
-/

set_option autoImplicit false

namespace EchoLens

/-! ## Character-level embeddings of the JavaScript string primitives -/

/-- Embedding of JavaScript toLowerCase as applied to the ASCII labels this
application uses: lower each character of the string. -/
def toLowerStr (s : String) : String :=
  String.mk (s.data.map Char.toLower)

/-- Whitespace test used by the embedding of JavaScript trim. -/
def isJsSpace (c : Char) : Bool :=
  c = ' ' || c = '\t' || c = '\n' || c = '\r' || c = '\x0b' || c = '\x0c'

/-- Embedding of JavaScript String.prototype.trim: drop whitespace from both
ends of the character list. -/
def trimStr (s : String) : String :=
  String.mk (((s.data.dropWhile isJsSpace).reverse.dropWhile isJsSpace).reverse)

/-! ## lib/helpers.ts: extractDomain

The call new URL(url) is a platform capability; the embedding takes the
parser as an argument returning the parsed record on success and none when
the constructor would throw, which the try/catch in the source turns into
the null result. -/

/-- The part of the parsed URL object that extractDomain reads. -/
structure ParsedURL where
  hostname : String
deriving DecidableEq

/-- Embedding of the regex replacement hostname.replace of the anchored
pattern for a leading www. label: without the global flag, replace rewrites
at most one match, and the anchor puts it at the start. -/
def stripLeadingWww (s : String) : String :=
  match s.data with
  | 'w' :: 'w' :: 'w' :: '.' :: rest => String.mk rest
  | _ => s

/-- Embedding of extractDomain from lib/helpers.ts: parse the URL, return
the hostname with one leading www. removed, or null (none) when parsing
fails. Totality of the Lean function mirrors the try/catch making the
source function never throw. -/
def extractDomain (parseURL : String → Option ParsedURL) (url : String) :
    Option String :=
  match parseURL url with
  | some u => some (stripLeadingWww u.hostname)
  | none => none

/-! ## components/EmotionBadge.jsx -/

/-- The emoji and background color chosen for a label. -/
structure EmotionStyle where
  emoji : String
  color : String
deriving DecidableEq

/-- Embedding of the emotionStyles lookup object of EmotionBadge.jsx. -/
def emotionStyles (label : String) : Option EmotionStyle :=
  if label = "anger" then some ⟨"😠", "bg-red-600"⟩
  else if label = "disgust" then some ⟨"🤢", "bg-green-700"⟩
  else if label = "fear" then some ⟨"😨", "bg-purple-600"⟩
  else if label = "joy" then some ⟨"😊", "bg-yellow-400 text-black"⟩
  else if label = "neutral" then some ⟨"😐", "bg-gray-400"⟩
  else if label = "sadness" then some ⟨"😢", "bg-blue-500"⟩
  else if label = "surprise" then some ⟨"😲", "bg-indigo-500"⟩
  else none

/-- The fallback style of EmotionBadge.jsx: question mark emoji on gray. -/
def fallbackEmotionStyle : EmotionStyle := ⟨"❓", "bg-gray-500"⟩

/-- Embedding of the style computation of EmotionBadge: lowercase the label,
look it up, fall back to the question-mark style. -/
def emotionBadgeStyle (label : String) : EmotionStyle :=
  (emotionStyles (toLowerStr label)).getD fallbackEmotionStyle

/-- The seven labels that emotionStyles recognizes. -/
def knownEmotionLabels : List String :=
  ["anger", "disgust", "fear", "joy", "neutral", "sadness", "surprise"]

/-! ## Theorems for the helper and badge claims -/

lemma stripLeadingWww_www_append (s : String) :
    stripLeadingWww ("www." ++ s) = s := by
  have hdata : ("www." ++ s).data = 'w' :: 'w' :: 'w' :: '.' :: s.data := by
    rw [String.data_append]; rfl
  have : stripLeadingWww ("www." ++ s)
      = match ("www." ++ s).data with
        | 'w' :: 'w' :: 'w' :: '.' :: rest => String.mk rest
        | _ => ("www." ++ s) := rfl
  rw [this, hdata]
  cases s with
  | mk d => rfl

lemma stripLeadingWww_of_no_www (s : String)
    (h : ∀ rest : List Char, s.data ≠ 'w' :: 'w' :: 'w' :: '.' :: rest) :
    stripLeadingWww s = s := by
  unfold stripLeadingWww
  split
  case h_1 rest heq => exact absurd heq (h rest)
  case h_2 => rfl

/-- C8: extractDomain is total (the embedding returns an Option and the
source catches every parse failure): when the URL parses it returns the
hostname with a single leading www. prefix removed, otherwise null; and the
strip really removes exactly one anchored www. label. -/
theorem extractDomain_total_spec (parseURL : String → Option ParsedURL)
    (url : String) :
    (∀ u, parseURL url = some u →
      extractDomain parseURL url = some (stripLeadingWww u.hostname))
    ∧ (parseURL url = none → extractDomain parseURL url = none)
    ∧ (∀ s : String, stripLeadingWww ("www." ++ s) = s)
    ∧ (∀ s : String,
        (∀ rest : List Char, s.data ≠ 'w' :: 'w' :: 'w' :: '.' :: rest) →
        stripLeadingWww s = s) := by
  refine ⟨?_, ?_, ?_, ?_⟩
  · intro u hu
    simp [extractDomain, hu]
  · intro hn
    simp [extractDomain, hn]
  · exact stripLeadingWww_www_append
  · exact stripLeadingWww_of_no_www

/-- A concrete URL parser used to evaluate the extractDomain theorem. -/
def demoParseURL (url : String) : Option ParsedURL :=
  if url = "https://www.example.com/a" then some ⟨"www.example.com"⟩ else none

/-- C8 witness: the theorem evaluated at a parsing URL and at a
non-parsing string. -/
theorem extractDomain_total_spec_witness :
    extractDomain demoParseURL "https://www.example.com/a"
      = some (stripLeadingWww "www.example.com")
    ∧ extractDomain demoParseURL "not a url" = none := by
  refine ⟨?_, ?_⟩
  · exact (extractDomain_total_spec demoParseURL "https://www.example.com/a").1
      ⟨"www.example.com"⟩ (by decide)
  · exact (extractDomain_total_spec demoParseURL "not a url").2.1 (by decide)

/-- C9: the EmotionBadge style is case-insensitive in the label (two labels
with the same lowercasing get the same style), and any label whose
lowercasing is outside the seven known emotions renders the fallback
question-mark-on-gray style instead of failing. -/
theorem emotionBadgeStyle_spec :
    (∀ l₁ l₂ : String, toLowerStr l₁ = toLowerStr l₂ →
      emotionBadgeStyle l₁ = emotionBadgeStyle l₂)
    ∧ (∀ l : String, toLowerStr l ∉ knownEmotionLabels →
      emotionBadgeStyle l = fallbackEmotionStyle) := by
  constructor
  · intro l₁ l₂ h
    unfold emotionBadgeStyle
    rw [h]
  · intro l h
    simp only [knownEmotionLabels, List.mem_cons, List.mem_singleton,
      not_or, List.not_mem_nil] at h
    obtain ⟨h1, h2, h3, h4, h5, h6, h7, -⟩ := h
    unfold emotionBadgeStyle emotionStyles
    rw [if_neg h1, if_neg h2, if_neg h3, if_neg h4, if_neg h5, if_neg h6,
      if_neg h7]
    rfl

/-- C9 witness: the theorem evaluated at an uppercase known label and at an
unknown label. -/
theorem emotionBadgeStyle_spec_witness :
    emotionBadgeStyle "ANGER" = emotionBadgeStyle "anger"
    ∧ emotionBadgeStyle "Confused" = fallbackEmotionStyle := by
  refine ⟨?_, ?_⟩
  · exact emotionBadgeStyle_spec.1 "ANGER" "anger" (by decide)
  · exact emotionBadgeStyle_spec.2 "Confused" (by decide)

/-! ## lib/types.ts and app/page.tsx: the shared data model -/

/-- A small JSON value type used to state facts about response shapes. -/
inductive JVal where
  | str (s : String)
  | num (q : ℚ)
  | arr (items : List JVal)
  | obj (fields : List (String × JVal))

/-- One classifier verdict as declared in lib/types.ts: a label, its
confidence, and the raw score map. -/
structure LabelScores where
  label : String
  confidence : ℚ
  raw_scores : List (String × ℚ)
deriving DecidableEq

/-- Embedding of the AnalyzeResult type of lib/types.ts and app/page.tsx:
its declared fields are exactly bias and emotion. -/
structure AnalyzeResult where
  bias : LabelScores
  emotion : LabelScores
deriving DecidableEq

/-- Embedding of the DebateResult type of lib/types.ts. -/
structure DebateResult where
  claim : String
  «for» : List String
  «against» : List String
deriving DecidableEq

/-- The two UI modes of the Session type. -/
inductive Mode where
  | analyze
  | debate
deriving DecidableEq

/-- Embedding of the Session type of lib/types.ts. -/
structure Session where
  label : String
  text : String
  sourceUrl : String
  analyzeResult : Option AnalyzeResult
  debateResult : Option DebateResult
  mode : Mode
deriving DecidableEq

/-- JSON serialization of one LabelScores record, following the field
declarations of lib/types.ts. -/
def labelScoresToJson (ls : LabelScores) : JVal :=
  .obj [("label", .str ls.label), ("confidence", .num ls.confidence),
    ("raw_scores", .obj (ls.raw_scores.map (fun p => (p.1, JVal.num p.2))))]

/-- JSON serialization of an AnalyzeResult, following the field
declarations of lib/types.ts: the object has the keys bias and emotion. -/
def analyzeResultToJson (r : AnalyzeResult) : JVal :=
  .obj [("bias", labelScoresToJson r.bias),
    ("emotion", labelScoresToJson r.emotion)]

/-- The top-level keys of a serialized AnalyzeResult. -/
def analyzeResultKeys (r : AnalyzeResult) : List String :=
  match analyzeResultToJson r with
  | .obj fields => fields.map Prod.fst
  | _ => []

/-- A concrete AnalyzeResult value used to evaluate the shape claims. -/
def sampleAnalyzeResult : AnalyzeResult :=
  { bias :=
      { label := "Left", confidence := 9/10,
        raw_scores := [("Left", 9/10), ("Center", 1/20), ("Right", 1/20)] },
    emotion :=
      { label := "joy", confidence := 1/2,
        raw_scores := [("joy", 1/2), ("neutral", 1/2)] } }

/-- C1 counterexample: at a concrete successful analyze result, the claimed
shape (bias key, emotion key, and a partial-failure key) is false, because
the AnalyzeResult type declared in lib/types.ts and app/page.tsx carries no
field named by the string under test. -/
theorem analyzeResult_no_partial_counterexample :
    ¬ ("bias" ∈ analyzeResultKeys sampleAnalyzeResult
      ∧ "emotion" ∈ analyzeResultKeys sampleAnalyzeResult
      ∧ "partial" ∈ analyzeResultKeys sampleAnalyzeResult) := by
  intro h
  have h3 := h.2.2
  simp [analyzeResultKeys, analyzeResultToJson, sampleAnalyzeResult] at h3

/-- C1 amended: every successful analyze result carries exactly the
document-level bias verdict and the document-level emotion verdict; its key
list is the two-element list of those kinds, so in particular there is no
partial-failure indicator field. -/
theorem analyzeResult_shape (r : AnalyzeResult) :
    analyzeResultKeys r = ["bias", "emotion"] := by
  simp [analyzeResultKeys, analyzeResultToJson]

/-! ## app/api/analyze/route.js: the minimum-length gate

The route rejects a missing text or a text whose trimmed length is below
ten characters with a 400 invalid-input response, before doing anything
else; otherwise it answers with its fixed simulated analysis object. -/

/-- The typed failure of the analyze route. -/
inductive ApiError where
  | invalidInput
deriving DecidableEq

/-- The simulated analysis object that the checked route returns. -/
structure SimulatedAnalysis where
  bias : String
  techniques : String
  credibility : String
deriving DecidableEq

/-- The fixed body of the 200 response of the route. -/
def simulatedAnalysis : SimulatedAnalysis :=
  { bias := "Moderate left-leaning bias with emotionally charged phrases.",
    techniques := "Loaded Language, Appeal to Authority, Strawman",
    credibility := "Moderate — Source has mixed accuracy history" }

/-- Embedding of the POST handler: a missing text (none) or an empty text
is falsy, and a trimmed length below 10 is rejected; both produce the
invalid-input error before any further work. -/
def POST (text : Option String) : Except ApiError SimulatedAnalysis :=
  match text with
  | none => .error .invalidInput
  | some t =>
    if t = "" ∨ (trimStr t).length < 10 then .error .invalidInput
    else .ok simulatedAnalysis

/-- C3: a text whose trimmed length is exactly the minimum (10) passes the
gate and the route succeeds, while a text whose trimmed length is 9 is
rejected with the invalid-input error before any model work. -/
theorem post_min_length_boundary (t : String) :
    ((trimStr t).length = 10 → POST (some t) = .ok simulatedAnalysis)
    ∧ ((trimStr t).length = 9 → POST (some t) = .error .invalidInput) := by
  constructor
  · intro h10
    have hne : t ≠ "" := by
      intro he
      rw [he] at h10
      simp [trimStr] at h10
    have hcond : ¬ (t = "" ∨ (trimStr t).length < 10) := by
      rw [h10]
      simp [hne]
    simp [POST, hcond]
  · intro h9
    have hlt : (trimStr t).length < 10 := by omega
    simp [POST, hlt]

/-- C3 witness: the theorem evaluated at a ten-character text and at a
nine-character text. -/
theorem post_min_length_boundary_witness :
    POST (some "abcdefghij") = .ok simulatedAnalysis
    ∧ POST (some "abcdefghi") = .error .invalidInput := by
  refine ⟨?_, ?_⟩
  · exact (post_min_length_boundary "abcdefghij").1 (by decide)
  · exact (post_min_length_boundary "abcdefghi").2 (by decide)

/-! ## app/page.tsx: updateCurrentSession -/

/-- A partial session update: each field optionally overridden, matching
the Partial Session parameter of updateCurrentSession. -/
structure SessionPatch where
  label : Option String := none
  text : Option String := none
  sourceUrl : Option String := none
  analyzeResult : Option (Option AnalyzeResult) := none
  debateResult : Option (Option DebateResult) := none
  mode : Option Mode := none
deriving DecidableEq

/-- Embedding of the object spread of updateCurrentSession: fields present
in the patch replace the stored ones, all others are kept. -/
def mergeSession (s : Session) (p : SessionPatch) : Session :=
  { label := p.label.getD s.label,
    text := p.text.getD s.text,
    sourceUrl := p.sourceUrl.getD s.sourceUrl,
    analyzeResult := p.analyzeResult.getD s.analyzeResult,
    debateResult := p.debateResult.getD s.debateResult,
    mode := p.mode.getD s.mode }

/-- Embedding of updateCurrentSession of app/page.tsx: copy the list and
replace the entry at the active index with the merge of the stored session
and the patch. The active index always addresses an existing session in
the application (it starts at 0 with one session and is only ever set to
an index of the current list). -/
def updateCurrentSession (sessions : List Session)
    (activeSessionIndex : Nat) (updatedFields : SessionPatch) :
    List Session :=
  match sessions[activeSessionIndex]? with
  | some s =>
    sessions.set activeSessionIndex (mergeSession s updatedFields)
  | none => sessions

/-- C10: with a valid active index, updateCurrentSession keeps the list
length, stores the merged session at the active index, and leaves every
other index unchanged. -/
theorem updateCurrentSession_frame (sessions : List Session)
    (i : Nat) (p : SessionPatch) (h : i < sessions.length) :
    (updateCurrentSession sessions i p).length = sessions.length
    ∧ (updateCurrentSession sessions i p)[i]?
        = some (mergeSession sessions[i] p)
    ∧ ∀ j, j ≠ i →
        (updateCurrentSession sessions i p)[j]? = sessions[j]? := by
  have hget : sessions[i]? = some sessions[i] := List.getElem?_eq_getElem h
  refine ⟨?_, ?_, ?_⟩
  · unfold updateCurrentSession
    rw [hget]
    exact List.length_set sessions i _
  · unfold updateCurrentSession
    rw [hget]
    exact List.getElem?_set_eq_of_lt _ h
  · intro j hj
    unfold updateCurrentSession
    rw [hget]
    exact List.getElem?_set_ne (fun he => hj he.symm)

/-- Two concrete sessions used to evaluate the frame theorem. -/
def demoSessions : List Session :=
  [{ label := "Session 1", text := "", sourceUrl := "",
     analyzeResult := none, debateResult := none, mode := .analyze },
   { label := "Session 2", text := "old", sourceUrl := "",
     analyzeResult := none, debateResult := none, mode := .debate }]

/-- A concrete patch updating only the text and the mode. -/
def demoPatch : SessionPatch :=
  { text := some "updated text", mode := some .analyze }

/-- C10 witness: the theorem evaluated on a two-session list, showing the
length is kept and the other session untouched. -/
theorem updateCurrentSession_frame_witness :
    (updateCurrentSession demoSessions 0 demoPatch).length
      = demoSessions.length
    ∧ (updateCurrentSession demoSessions 0 demoPatch)[1]?
        = demoSessions[1]? := by
  have h := updateCurrentSession_frame demoSessions 0 demoPatch (by decide)
  exact ⟨h.1, h.2.2 1 (by decide)⟩

/-! ## Token-budget chunker

Modelled from the spec: the backend chunking code (backend/main.py) is not
part of the checked tree; the greedy algorithm below follows the written
contract of the Token-Budget Chunker — accumulate sentences while the
running token count plus the next sentence stays within the budget, close
the chunk when the next sentence would overflow, and let a sentence whose
own token count exceeds the budget stand alone as its own chunk, never
split. Sentences are abstract values with a supplied token counter. -/

/-- Token count of a chunk: the sum of the sentence token counts. -/
def chunkTokenCount {α : Type} (tokens : α → Nat) (chunk : List α) : Nat :=
  (chunk.map tokens).sum

/-- Greedy accumulation: the first list is the remaining sentences, the
second the currently open chunk (in order). -/
def buildChunks {α : Type} (tokens : α → Nat) (tokenBudget : Nat) :
    List α → List α → List (List α)
  | [], cur => if cur.isEmpty then [] else [cur]
  | s :: rest, cur =>
    if cur.isEmpty then buildChunks tokens tokenBudget rest [s]
    else if chunkTokenCount tokens cur + tokens s ≤ tokenBudget then
      buildChunks tokens tokenBudget rest (cur ++ [s])
    else cur :: buildChunks tokens tokenBudget rest [s]

/-- Modelled from the spec: the Token-Budget Chunker, starting from an
empty open chunk. -/
def chunkSentences {α : Type} (tokens : α → Nat) (tokenBudget : Nat)
    (sentences : List α) : List (List α) :=
  buildChunks tokens tokenBudget sentences []

lemma chunkTokenCount_append {α : Type} (tokens : α → Nat)
    (l : List α) (s : α) :
    chunkTokenCount tokens (l ++ [s]) = chunkTokenCount tokens l + tokens s := by
  simp [chunkTokenCount]

lemma buildChunks_flatten {α : Type} (tokens : α → Nat) (b : Nat) :
    ∀ (rest cur : List α),
      (buildChunks tokens b rest cur).flatten = cur ++ rest := by
  intro rest
  induction rest with
  | nil =>
    intro cur
    by_cases hc : cur.isEmpty
    · have : cur = [] := List.isEmpty_iff.mp hc
      simp [buildChunks, hc, this]
    · simp [buildChunks, hc]
  | cons s rest ih =>
    intro cur
    by_cases hc : cur.isEmpty
    · have hnil : cur = [] := List.isEmpty_iff.mp hc
      simp [buildChunks, hc, hnil, ih]
    · by_cases hfit : chunkTokenCount tokens cur + tokens s ≤ b
      · simp [buildChunks, hc, hfit, ih]
      · simp [buildChunks, hc, hfit, ih]

lemma buildChunks_bound {α : Type} (tokens : α → Nat) (b : Nat) :
    ∀ (rest cur : List α),
      (cur ≠ [] →
        chunkTokenCount tokens cur ≤ b ∨ ∃ s, cur = [s] ∧ b < tokens s) →
      ∀ c ∈ buildChunks tokens b rest cur,
        c ≠ [] ∧
          (chunkTokenCount tokens c ≤ b ∨ ∃ s, c = [s] ∧ b < tokens s) := by
  intro rest
  induction rest with
  | nil =>
    intro cur hcur c hmem
    by_cases hc : cur.isEmpty
    · simp [buildChunks, hc] at hmem
    · simp [buildChunks, hc] at hmem
      have hne : cur ≠ [] := fun he => hc (by simp [he])
      exact ⟨hmem ▸ hne, hmem ▸ hcur hne⟩
  | cons s rest ih =>
    intro cur hcur c hmem
    have hsingle : ([s] : List α) ≠ [] →
        chunkTokenCount tokens [s] ≤ b ∨ ∃ x, [s] = [x] ∧ b < tokens x := by
      intro _
      by_cases hs : tokens s ≤ b
      · left
        simpa [chunkTokenCount] using hs
      · right
        exact ⟨s, rfl, by omega⟩
    by_cases hc : cur.isEmpty
    · rw [buildChunks] at hmem
      rw [if_pos hc] at hmem
      exact ih [s] hsingle c hmem
    · by_cases hfit : chunkTokenCount tokens cur + tokens s ≤ b
      · rw [buildChunks] at hmem
        rw [if_neg hc, if_pos hfit] at hmem
        refine ih (cur ++ [s]) ?_ c hmem
        intro _
        left
        rw [chunkTokenCount_append]
        exact hfit
      · rw [buildChunks] at hmem
        rw [if_neg hc, if_neg hfit] at hmem
        rcases List.mem_cons.mp hmem with hcq | hrec
        · have hne : cur ≠ [] := fun he => hc (by simp [he])
          exact ⟨hcq ▸ hne, hcq ▸ hcur hne⟩
        · exact ih [s] hsingle c hrec

/-- C5: for every sentence sequence and positive budget, every produced
chunk either stays within the token budget or is exactly one oversized
sentence passed through unsplit; and the chunks flatten back to the input
sentence sequence, so no sentence is dropped, duplicated, or split across
chunks. -/
theorem chunkSentences_budget_invariant {α : Type} (tokens : α → Nat)
    (budget : Nat) (sentences : List α) (_hb : 0 < budget) :
    (∀ c ∈ chunkSentences tokens budget sentences,
      chunkTokenCount tokens c ≤ budget ∨ ∃ s, c = [s] ∧ budget < tokens s)
    ∧ (chunkSentences tokens budget sentences).flatten = sentences := by
  constructor
  · intro c hmem
    exact (buildChunks_bound tokens budget sentences []
      (fun h => absurd rfl h) c hmem).2
  · simpa using buildChunks_flatten tokens budget sentences []

/-- C5 witness: the theorem evaluated with token counts 2,2,3,7,1 and
budget 5: the chunks are [2,2], [3], [7], [1]; the oversized sentence 7
stands alone and flattening returns the input. -/
theorem chunkSentences_budget_invariant_witness :
    (chunkSentences id 5 [2, 2, 3, 7, 1]).flatten = [2, 2, 3, 7, 1]
    ∧ (chunkTokenCount id [7] ≤ 5 ∨ ∃ s, [7] = [s] ∧ 5 < id s) := by
  have h := chunkSentences_budget_invariant id 5 [2, 2, 3, 7, 1] (by decide)
  exact ⟨h.2, h.1 [7] (by decide)⟩

/-! ## Confidence-weighted aggregator

Modelled from the spec: the backend aggregation code (backend/main.py) is
not part of the checked tree; the definitions below follow the written
contract of the Confidence-Weighted Aggregator — per label, the weighted
mean of the per-chunk probabilities with each modelConfidence as weight,
the unweighted mean when the total weight degenerates to zero, and the
final label as the argmax of the aggregated distribution over a fixed
label-priority order, ties keeping the earlier label. -/

/-- A per-chunk prediction as in the data model: the class probabilities
and the stored modelConfidence (the top-label probability reported with
the prediction), which aggregation uses as the weight of the chunk. -/
structure ChunkPrediction (L : Type) where
  probs : L → ℚ
  modelConfidence : ℚ

/-- The sum of the weights of the predictions. -/
def totalWeight {L : Type} (preds : List (ChunkPrediction L)) : ℚ :=
  (preds.map (fun p => p.modelConfidence)).sum

/-- The weighted score of one label across the predictions. -/
def weightedScore {L : Type} (preds : List (ChunkPrediction L)) (lab : L) :
    ℚ :=
  (preds.map (fun p => p.modelConfidence * p.probs lab)).sum

/-- Modelled from the spec: the aggregated probability of a label — the
confidence-weighted mean, falling back to the unweighted mean when the
total weight is zero. -/
def aggregate {L : Type} (preds : List (ChunkPrediction L)) (lab : L) : ℚ :=
  if totalWeight preds = 0 then
    (preds.map (fun p => p.probs lab)).sum / preds.length
  else weightedScore preds lab / totalWeight preds

/-- Argmax over a fixed label list; on ties the earlier label wins, so the
order of the list is the fixed label-priority order. -/
def argmaxLabel {L : Type} (f : L → ℚ) : List L → Option L
  | [] => none
  | l :: ls =>
    some (ls.foldl (fun best lab => if f best < f lab then lab else best) l)

/-- Modelled from the spec: the final label is the argmax of the
aggregated distribution over the fixed label-priority order. -/
def finalLabel {L : Type} (labelOrder : List L)
    (preds : List (ChunkPrediction L)) : Option L :=
  argmaxLabel (aggregate preds) labelOrder

/-- The bias label set in its fixed priority order. -/
inductive BiasLabel where
  | left
  | center
  | right
deriving DecidableEq

/-- The fixed label-priority order for the bias classifier. -/
def biasLabelOrder : List BiasLabel := [.left, .center, .right]

/-- The first scenario chunk: confidence 0.9, probabilities
0.9 / 0.05 / 0.05 for left / center / right. -/
def chunkA : ChunkPrediction BiasLabel :=
  { probs := fun lab =>
      match lab with
      | .left => 9/10
      | .center => 1/20
      | .right => 1/20,
    modelConfidence := 9/10 }

/-- The second scenario chunk: confidence 0.5, probabilities
0.1 / 0.8 / 0.1 for left / center / right. -/
def chunkB : ChunkPrediction BiasLabel :=
  { probs := fun lab =>
      match lab with
      | .left => 1/10
      | .center => 8/10
      | .right => 1/10,
    modelConfidence := 1/2 }

lemma aggregate_scenario_left :
    aggregate [chunkA, chunkB] BiasLabel.left = 43/70 := by
  rw [aggregate, if_neg]
  · norm_num [weightedScore, totalWeight, chunkA, chunkB]
  · norm_num [totalWeight, chunkA, chunkB]

lemma aggregate_scenario_center :
    aggregate [chunkA, chunkB] BiasLabel.center = 89/280 := by
  rw [aggregate, if_neg]
  · norm_num [weightedScore, totalWeight, chunkA, chunkB]
  · norm_num [totalWeight, chunkA, chunkB]

lemma aggregate_scenario_right :
    aggregate [chunkA, chunkB] BiasLabel.right = 19/280 := by
  rw [aggregate, if_neg]
  · norm_num [weightedScore, totalWeight, chunkA, chunkB]
  · norm_num [totalWeight, chunkA, chunkB]

/-- C2: for a non-empty prediction list, the aggregated probability of a
label is the weighted mean with the modelConfidence weights whenever the
total weight is non-zero; when every weight is zero the aggregate is the
unweighted mean; and in the two-chunk scenario with confidences 0.9 and
0.5 the aggregated left probability is 43/70 (about 0.614) and the final
label is left. -/
theorem aggregate_weighted_mean_spec :
    (∀ (L : Type) (preds : List (ChunkPrediction L)) (lab : L),
      preds ≠ [] →
      (totalWeight preds ≠ 0 →
        aggregate preds lab = weightedScore preds lab / totalWeight preds)
      ∧ ((∀ p ∈ preds, p.modelConfidence = 0) →
        aggregate preds lab
          = (preds.map (fun p => p.probs lab)).sum / preds.length))
    ∧ aggregate [chunkA, chunkB] BiasLabel.left = 43/70
    ∧ (43/70 - 614/1000 : ℚ) < 1/1000
    ∧ finalLabel biasLabelOrder [chunkA, chunkB] = some BiasLabel.left := by
  refine ⟨?_, aggregate_scenario_left, by norm_num, ?_⟩
  · intro L preds lab _
    constructor
    · intro hW
      rw [aggregate, if_neg hW]
    · intro hzero
      have hW : totalWeight preds = 0 := by
        apply List.sum_eq_zero
        intro x hx
        rcases List.mem_map.mp hx with ⟨p, hp, hpx⟩
        rw [← hpx]
        exact hzero p hp
      rw [aggregate, if_pos hW]
  · have h1 : ¬ (aggregate [chunkA, chunkB] BiasLabel.left
        < aggregate [chunkA, chunkB] BiasLabel.center) := by
      rw [aggregate_scenario_left, aggregate_scenario_center]
      norm_num
    have h2 : ¬ (aggregate [chunkA, chunkB] BiasLabel.left
        < aggregate [chunkA, chunkB] BiasLabel.right) := by
      rw [aggregate_scenario_left, aggregate_scenario_right]
      norm_num
    simp [finalLabel, argmaxLabel, biasLabelOrder, h1, h2]

/-- C2 witness: the weighted-mean clause evaluated at the concrete
scenario predictions, whose total weight 1.4 is non-zero. -/
theorem aggregate_weighted_mean_spec_witness :
    aggregate [chunkA, chunkB] BiasLabel.left
      = weightedScore [chunkA, chunkB] BiasLabel.left
          / totalWeight [chunkA, chunkB] :=
  (aggregate_weighted_mean_spec.1 BiasLabel [chunkA, chunkB] BiasLabel.left
    (List.cons_ne_nil _ _)).1
    (by norm_num [totalWeight, chunkA, chunkB])

/-- C4: aggregation is a pure function of the multiset of predictions —
permuting the prediction list changes neither the aggregated distribution
nor the final label — and ties in the argmax are broken by the fixed
label-priority order (a constant distribution yields the first label of
the order, left). -/
theorem aggregate_perm_invariant :
    (∀ (L : Type) (labelOrder : List L)
      (preds₁ preds₂ : List (ChunkPrediction L)),
      preds₁.Perm preds₂ →
      (∀ lab, aggregate preds₁ lab = aggregate preds₂ lab)
      ∧ finalLabel labelOrder preds₁ = finalLabel labelOrder preds₂)
    ∧ argmaxLabel (fun _ => (1 : ℚ)) biasLabelOrder = some BiasLabel.left := by
  constructor
  · intro L labelOrder preds₁ preds₂ hperm
    have hW : totalWeight preds₁ = totalWeight preds₂ := by
      unfold totalWeight
      exact (hperm.map (fun p => p.modelConfidence)).sum_eq
    have hagg : ∀ lab, aggregate preds₁ lab = aggregate preds₂ lab := by
      intro lab
      have hS : weightedScore preds₁ lab = weightedScore preds₂ lab := by
        unfold weightedScore
        exact (hperm.map (fun p => p.modelConfidence * p.probs lab)).sum_eq
      have hU : (preds₁.map (fun p => p.probs lab)).sum
          = (preds₂.map (fun p => p.probs lab)).sum :=
        (hperm.map (fun p => p.probs lab)).sum_eq
      have hL : preds₁.length = preds₂.length := hperm.length_eq
      rw [aggregate, aggregate, hW, hS, hU, hL]
    refine ⟨hagg, ?_⟩
    have hfun : aggregate preds₁ = aggregate preds₂ := funext hagg
    rw [finalLabel, finalLabel, hfun]
  · rfl

/-- C4 witness: swapping the two scenario chunks leaves the final label
unchanged. -/
theorem aggregate_perm_invariant_witness :
    finalLabel biasLabelOrder [chunkA, chunkB]
      = finalLabel biasLabelOrder [chunkB, chunkA] :=
  (aggregate_perm_invariant.1 BiasLabel biasLabelOrder
    [chunkA, chunkB] [chunkB, chunkA] (List.Perm.swap chunkB chunkA [])).2

/-! ## Claim/Debate orchestrator

Modelled from the spec: the backend debate code (backend/main.py) is not
part of the checked tree; the two-stage state machine below follows the
written contract — stage 1 extracts the claim (failing on call failure or
empty content), stage 2 generates the two argument lists from the
extracted claim only, and stage 2 is only reached after stage 1 succeeds.
The run is instrumented with an event trace recording each external call,
so the sequencing property is a statement about the trace. -/

/-- The typed failures of the debate flow. -/
inductive DebateError where
  | claimExtraction
  | argumentGeneration
deriving DecidableEq

/-- The spec shape of the debate result. -/
structure ArgumentSet where
  claim : String
  forPoints : List String
  againstPoints : List String
deriving DecidableEq

/-- External calls made during one debate run, with their input. -/
inductive DebateEvent where
  | claimCall (text : String)
  | argCall (claim : String)
deriving DecidableEq

/-- Modelled from the spec: one debate run over the two supplied external
capabilities, returning the result and the trace of calls made. -/
def runDebate (extractClaim : String → Option String)
    (generateArguments : String → Option (List String × List String))
    (text : String) : Except DebateError ArgumentSet × List DebateEvent :=
  match extractClaim text with
  | none => (.error .claimExtraction, [.claimCall text])
  | some claim =>
    if claim = "" then (.error .claimExtraction, [.claimCall text])
    else
      match generateArguments claim with
      | none =>
        (.error .argumentGeneration, [.claimCall text, .argCall claim])
      | some (f, a) =>
        (.ok ⟨claim, f, a⟩, [.claimCall text, .argCall claim])

/-- C6: in every debate run, if stage 1 fails (call failure or empty
claim) then no argument-generation call appears in the trace, and every
argument-generation call in the trace was made with exactly the claim that
stage 1 successfully produced in this run — never before stage 1 succeeds
and never with stale output. -/
theorem runDebate_stage_order (extractClaim : String → Option String)
    (generateArguments : String → Option (List String × List String))
    (text : String) :
    ((extractClaim text = none ∨ extractClaim text = some "") →
      ∀ c, DebateEvent.argCall c
        ∉ (runDebate extractClaim generateArguments text).2)
    ∧ (∀ c, DebateEvent.argCall c
        ∈ (runDebate extractClaim generateArguments text).2 →
      extractClaim text = some c ∧ c ≠ "") := by
  constructor
  · intro hfail c
    rcases hfail with hnone | hempty
    · simp [runDebate, hnone]
    · simp [runDebate, hempty]
  · intro c hmem
    rcases hext : extractClaim text with _ | claim
    · simp [runDebate, hext] at hmem
    · by_cases hempty : claim = ""
      · simp [runDebate, hext, hempty] at hmem
      · rcases hgen : generateArguments claim with _ | fa
        · simp [runDebate, hext, hempty, hgen] at hmem
          subst hmem
          exact ⟨rfl, hempty⟩
        · simp [runDebate, hext, hempty, hgen] at hmem
          subst hmem
          exact ⟨rfl, hempty⟩

/-- A stage-1 capability that always fails, used to evaluate the
sequencing theorem. -/
def failingExtract (_ : String) : Option String := none

/-- A stage-2 capability that always succeeds, used to evaluate the
sequencing theorem. -/
def emptyGenerate (_ : String) : Option (List String × List String) :=
  some ([], [])

/-- C6 witness: with a failing stage 1, the trace of the run contains no
argument-generation call. -/
theorem runDebate_stage_order_witness :
    DebateEvent.argCall "any claim"
      ∉ (runDebate failingExtract emptyGenerate "some text").2 :=
  (runDebate_stage_order failingExtract emptyGenerate "some text").1
    (Or.inl rfl) "any claim"

/-! ## Argument parsing and the DebateResults component -/

/-- Parse a JSON value as a list of strings, the shape each debate side
must have. -/
def asStringList : JVal → Option (List String)
  | .arr items => items.mapM (fun v =>
      match v with
      | .str s => some s
      | _ => none)
  | _ => none

/-- Look up a key in a JSON object. -/
def getField (key : String) : JVal → Option JVal
  | .obj fields => fields.lookup key
  | _ => none

/-- Modelled from the spec: extract the two sides from the structured
model response; none when either side is missing or is not a list of
strings. -/
def parseArgumentSides (resp : JVal) :
    Option (List String × List String) :=
  match (getField "for" resp).bind asStringList,
      (getField "against" resp).bind asStringList with
  | some f, some a => some (f, a)
  | _, _ => none

/-- Modelled from the spec: turn a structured response into an
ArgumentSet, failing with the argument-generation error exactly when the
response does not have the expected list-of-strings shape for both
sides. -/
def parseArguments (claim : String) (resp : JVal) :
    Except DebateError ArgumentSet :=
  match parseArgumentSides resp with
  | some (f, a) => .ok ⟨claim, f, a⟩
  | none => .error .argumentGeneration

/-- What the DebateResults component renders for the argument lists. -/
inductive DebateRender where
  | sections (showFor showAgainst : Bool)
  | noArgumentsMessage
deriving DecidableEq

/-- Embedding of the rendering logic of DebateResults.jsx: a side is shown
when its point list is non-empty; when both are empty the component shows
the no-arguments message — a normal render, not an error. -/
def debateResultsView (forPoints againstPoints : List String) :
    DebateRender :=
  let hasFor := !forPoints.isEmpty
  let hasAgainst := !againstPoints.isEmpty
  if hasFor || hasAgainst then .sections hasFor hasAgainst
  else .noArgumentsMessage

/-- A well-formed response with both sides empty. -/
def emptySidesResponse : JVal :=
  .obj [("for", .arr []), ("against", .arr [])]

/-- C7: a well-formed response whose sides are both empty parses to a
successful ArgumentSet with empty lists (a valid terminal result); the
parse fails with the argument-generation error exactly when a side cannot
be read as a list of strings; and the DebateResults component renders the
empty ArgumentSet as the no-arguments message rather than an error. -/
theorem emptyArguments_valid_spec :
    (∀ claim : String,
      parseArguments claim emptySidesResponse = .ok ⟨claim, [], []⟩)
    ∧ (∀ (claim : String) (resp : JVal),
      parseArguments claim resp = .error .argumentGeneration
        ↔ parseArgumentSides resp = none)
    ∧ debateResultsView [] [] = .noArgumentsMessage := by
  refine ⟨?_, ?_, rfl⟩
  · intro claim
    rfl
  · intro claim resp
    constructor
    · intro herr
      match hsides : parseArgumentSides resp with
      | none => rfl
      | some fa =>
        rw [parseArguments] at herr
        rw [hsides] at herr
        simp at herr
    · intro hnone
      rw [parseArguments, hnone]

/-- C7 witness: the parse of the empty-sided response evaluated at a
concrete claim, and the parse-failure clause evaluated at a malformed
response whose for side is a string. -/
theorem emptyArguments_valid_spec_witness :
    parseArguments "the claim" emptySidesResponse
      = .ok ⟨"the claim", [], []⟩
    ∧ parseArguments "the claim" (.obj [("for", .str "oops")])
        = .error .argumentGeneration := by
  refine ⟨emptyArguments_valid_spec.1 "the claim", ?_⟩
  · exact (emptyArguments_valid_spec.2.1 "the claim"
      (.obj [("for", .str "oops")])).mpr rfl

end EchoLens
